import Mathlib

/-!
Shallow embedding of the pricing / geocoding engine (src/pricing.py, src/app.py).

Text is modelled as `List Char` (ASCII input assumed, which is what the regex
classes in the source address).  Python floats that appear (tonnages) are
modelled as `Rat`: every constant involved (3.0, 7.5, 12.5, 27.5, ...) is
exactly representable and the only operations performed on them are
comparisons and equality tests, so this is exact.  Machine integers
(quantities, prices) are `Nat` (Python ints are unbounded).

The regular-expression operations of the source are embedded as executable
scanning functions with Python `re` semantics: left-to-right scan,
non-overlapping matches, ordered alternation, greedy quantifiers with
backtracking where it can matter.  Lookarounds read the original text.
-/

namespace Geocoding

/-- Character class `[A-Z0-9]` (case-sensitive, as in the first serial
pattern of `parse_and_price`, which has no IGNORECASE flag). -/
def isUpperAlnum (c : Char) : Bool :=
  ('A' ≤ c && c ≤ 'Z') || ('0' ≤ c && c ≤ '9')

/-- Character class `\d` (ASCII). -/
def isDigitCh (c : Char) : Bool := c.isDigit

/-- Character class `\s` (ASCII whitespace, Python `re` set). -/
def isSpaceCh (c : Char) : Bool :=
  c == ' ' || c == '\t' || c == '\n' || c == '\x0d' || c == '\x0b' || c == '\x0c'

/-- Character class `\w` (ASCII): letters, digits, underscore. -/
def isWordCh (c : Char) : Bool := c.isAlpha || c.isDigit || c == '_'

/-- Case-insensitive comparison of a text character with a lowercase literal. -/
def chEq (c : Char) (d : Char) : Bool := c.toLower == d

/-!
## Serial pattern 1: `(?<![A-Z0-9])(?=[A-Z0-9]*\d)[A-Z0-9]{10}(?![A-Z0-9])`

applied with `re.sub(pattern, '', text)` and NO flags, hence case-sensitive.
A match at a position requires: the previous character of the original text
is not in `[A-Z0-9]` (or start of text), the next 10 characters are all in
`[A-Z0-9]`, at least one of them is a digit (the lookahead `[A-Z0-9]*\d`
cannot reach past the run because character 11 is outside the class), and
character 11 is not in `[A-Z0-9]` (or end of text).
-/

/-- Does serial pattern 1 match at the head of `cs` (lookbehind already
checked by the caller)? -/
def run1Match (cs : List Char) : Bool :=
  ((cs.take 10).length == 10)
    && (cs.take 10).all isUpperAlnum
    && (cs.take 10).any isDigitCh
    && (match (cs.drop 10).head? with
        | none => true
        | some c => !isUpperAlnum c)

/-- `re.sub` of serial pattern 1: scan left to right; `prevOk` records the
negative lookbehind (true iff at start of text or the previous character of
the original text is not in `[A-Z0-9]`).  After a 10-character match the scan
resumes right after it; the character before the resume point is in the
class, so the lookbehind there is false.  The `skip` counter realizes the
deletion of the remaining 9 matched characters one by one, keeping the
recursion structural (hence kernel-computable). -/
def sub1A : Bool → Nat → List Char → List Char
  | _, _, [] => []
  | _, Nat.succ n, _ :: rest => sub1A false n rest
  | prevOk, 0, c :: rest =>
    if prevOk && run1Match (c :: rest) then
      sub1A false 9 rest
    else
      c :: sub1A (!isUpperAlnum c) 0 rest

/-- `re.sub` of serial pattern 1 (see `sub1A`). -/
def sub1 (prevOk : Bool) (cs : List Char) : List Char :=
  sub1A prevOk 0 cs

/-!
## Serial pattern 2: `(?i)(?:serial\s?no?\.?#?|s/n|sn)\s*([A-Z0-9-]{10,})`

Case-insensitive.  Alternation is ordered; optional pieces are greedy with
backtracking.  `\s*` backtracking can never rescue a failed run match
(whitespace is not in `[A-Z0-9-]`), so greedy there is exact; the optional
`o`, `.`, `#` are tried greedily first with explicit fallback.
-/

/-- Class `[A-Z0-9-]` under `(?i)`: letters of either case, digits, hyphen. -/
def isSerialRunCh (c : Char) : Bool := c.isAlpha || c.isDigit || c == '-'

/-- Match `\s*[A-Z0-9-]{10,}` (both greedy) at the head; returns consumed
length.  Giving back whitespace cannot help the run (a space is not a run
character), and the run is maximal, so no backtracking is needed here. -/
def serialTail (cs : List Char) : Option Nat :=
  let s := (cs.takeWhile isSpaceCh).length
  let r := ((cs.drop s).takeWhile isSerialRunCh).length
  if 10 ≤ r then some (s + r) else none

/-- Match `#?` then the tail, greedy with backtracking. -/
def serialOptHash (cs : List Char) : Option Nat :=
  match cs with
  | c :: rest =>
    if c == '#' then
      match serialTail rest with
      | some v => some (v + 1)
      | none => serialTail (c :: rest)
    else serialTail (c :: rest)
  | [] => serialTail []

/-- Match `\.?#?` then the tail, greedy with backtracking. -/
def serialOptDot (cs : List Char) : Option Nat :=
  match cs with
  | c :: rest =>
    if c == '.' then
      match serialOptHash rest with
      | some v => some (v + 1)
      | none => serialOptHash (c :: rest)
    else serialOptHash (c :: rest)
  | [] => serialOptHash []

/-- Match `o?\.?#?` then the tail, greedy with backtracking (the `o` is in
the run class, so this backtrack point is live). -/
def serialAfterN (cs : List Char) : Option Nat :=
  match cs with
  | c :: rest =>
    if chEq c 'o' then
      match serialOptDot rest with
      | some v => some (v + 1)
      | none => serialOptDot (c :: rest)
    else serialOptDot (c :: rest)
  | [] => serialOptDot []

/-- Match `n` then `o?\.?#?` and the tail. -/
def serialLitN (cs : List Char) : Option Nat :=
  match cs with
  | c :: rest =>
    if chEq c 'n' then
      match serialAfterN rest with
      | some v => some (v + 1)
      | none => none
    else none
  | [] => none

/-- Match `\s?no?\.?#?` and the tail (the part after the literal `serial`),
greedy with backtracking on `\s?`. -/
def serialAfterSerial (cs : List Char) : Option Nat :=
  let withWs : Option Nat :=
    match cs with
    | c :: rest =>
      if isSpaceCh c then
        match serialLitN rest with
        | some v => some (v + 1)
        | none => none
      else none
    | [] => none
  match withWs with
  | some v => some v
  | none => serialLitN cs

/-- Alternation branch `serial\s?no?\.?#?` plus tail; total consumed length. -/
def serialBranch1 (cs : List Char) : Option Nat :=
  match cs with
  | c1 :: c2 :: c3 :: c4 :: c5 :: c6 :: rest =>
    if chEq c1 's' && chEq c2 'e' && chEq c3 'r' && chEq c4 'i'
        && chEq c5 'a' && chEq c6 'l' then
      match serialAfterSerial rest with
      | some v => some (v + 6)
      | none => none
    else none
  | _ => none

/-- Alternation branch `s/n` plus tail. -/
def serialBranch2 (cs : List Char) : Option Nat :=
  match cs with
  | c1 :: c2 :: c3 :: rest =>
    if chEq c1 's' && c2 == '/' && chEq c3 'n' then
      match serialTail rest with
      | some v => some (v + 3)
      | none => none
    else none
  | _ => none

/-- Alternation branch `sn` plus tail. -/
def serialBranch3 (cs : List Char) : Option Nat :=
  match cs with
  | c1 :: c2 :: rest =>
    if chEq c1 's' && chEq c2 'n' then
      match serialTail rest with
      | some v => some (v + 2)
      | none => none
    else none
  | _ => none

/-- Serial pattern 2 match at the head of `cs` (ordered alternation);
returns total consumed length (always at least 12 when some). -/
def serialMatchAt (cs : List Char) : Option Nat :=
  match serialBranch1 cs with
  | some v => some v
  | none =>
    match serialBranch2 cs with
    | some v => some v
    | none => serialBranch3 cs

/-- `re.sub` of serial pattern 2 (no lookarounds, so a plain scan).  A match
of total length `L` consumes the current character plus `L - 1` further
characters, skipped one by one to keep the recursion structural. -/
def sub2A : Nat → List Char → List Char
  | _, [] => []
  | Nat.succ n, _ :: rest => sub2A n rest
  | 0, c :: rest =>
    match serialMatchAt (c :: rest) with
    | some L => sub2A (L - 1) rest
    | none => c :: sub2A 0 rest

/-- `re.sub` of serial pattern 2 (see `sub2A`). -/
def sub2 (cs : List Char) : List Char :=
  sub2A 0 cs

/-!
## Model pattern: `\b(?:[A-Z]{2}(?:\d{3}|\d{2}[A-Z])|[A-Z]{3}\d{2})[A-Z0-9-]*\b`

applied with `re.findall(..., re.IGNORECASE)`.  Under IGNORECASE the letter
classes match either case; `\b` is the usual word boundary over `\w`.
The two head alternatives are mutually exclusive (they differ on whether the
third character is a digit or a letter), as are the two inner alternatives
(fifth character digit vs letter), so the only live backtracking is the
greedy `[A-Z0-9-]*` against the trailing `\b`.
-/

/-- Class `[A-Z0-9-]` under IGNORECASE. -/
def isTailCh (c : Char) : Bool := c.isAlpha || c.isDigit || c == '-'

/-- Is a position a word boundary, given the character before it and the
character after it (`none` = end of text)?  The character before is always
present here because every candidate boundary in the model pattern follows
at least one matched character. -/
def boundaryB (prev : Char) (next : Option Char) : Bool :=
  match next with
  | none => isWordCh prev
  | some n => isWordCh prev != isWordCh n

/-- The 5-character head of the model pattern:
`[A-Z]{2}(?:\d{3}|\d{2}[A-Z])` or `[A-Z]{3}\d{2}` (IGNORECASE). -/
def modelHeadOk (cs : List Char) : Bool :=
  match cs with
  | c1 :: c2 :: c3 :: c4 :: c5 :: _ =>
    (c1.isAlpha && c2.isAlpha && c3.isDigit && c4.isDigit
        && (c5.isDigit || c5.isAlpha))
      || (c1.isAlpha && c2.isAlpha && c3.isAlpha && c4.isDigit && c5.isDigit)
  | _ => false

/-- Greedy descent: the largest `j ≤ n` with `f j = true`, if any. -/
def descendB (f : Nat → Bool) : Nat → Option Nat
  | 0 => if f 0 then some 0 else none
  | Nat.succ j => if f (j + 1) then some (j + 1) else descendB f j

/-- Length of the model-pattern match at the head of `cs` (the leading `\b`
is checked by the caller via the previous-character context).  The greedy
star consumes `j` tail-class characters, largest `j` first, until the
trailing `\b` holds. -/
def modelMatchLen (cs : List Char) : Option Nat :=
  if modelHeadOk cs then
    let c5 := cs.getD 4 ' '
    let rest := cs.drop 5
    let n := (rest.takeWhile isTailCh).length
    match descendB
        (fun j => boundaryB ((c5 :: rest.takeWhile isTailCh).getD j ' ')
          ((rest.drop j).head?)) n with
    | some j => some (5 + j)
    | none => none
  else none

/-- `re.findall` of the model pattern: scan left to right with the
previous-character word context (for the leading `\b`; the match starts with
a letter, so the boundary holds iff the previous character is not a word
character).  After a match of length `L` the scan resumes at its end: the
word context there is the last matched character, and the remaining `L - 1`
consumed characters are skipped one by one (structural recursion). -/
def findModelsA : Bool → Nat → List Char → List (List Char)
  | _, _, [] => []
  | prevW, Nat.succ n, _ :: rest => findModelsA prevW n rest
  | prevW, 0, c :: rest =>
    match (if prevW then none else modelMatchLen (c :: rest)) with
    | some L =>
      ((c :: rest).take L)
        :: findModelsA (isWordCh ((c :: rest).getD (L - 1) ' ')) (L - 1) rest
    | none => findModelsA (isWordCh c) 0 rest

/-- `re.findall` of the model pattern (see `findModelsA`). -/
def findModels (prevW : Bool) (cs : List Char) : List (List Char) :=
  findModelsA prevW 0 cs

/-- The full text normalization of `parse_and_price`: serial pattern 1 then
serial pattern 2, each as a global substitution by the empty string. -/
def normalizeText (text : String) : List Char :=
  sub2 (sub1 true text.toList)

/-- `all_models_found`: every model-pattern match in the normalized text,
upper-cased, in order of appearance (with repetitions). -/
def allModelsFound (text : String) : List String :=
  (findModels false (normalizeText text)).map (fun l => String.mk (l.map Char.toUpper))

/-!
## Counting, decoding and pricing
-/

/-- First occurrences of each element, in order (the key order of a Python
`Counter` built from a list); `seen` accumulates the keys already emitted. -/
def dedupAux : List String → List String → List String
  | _, [] => []
  | seen, x :: xs =>
    if x ∈ seen then dedupAux seen xs
    else x :: dedupAux (x :: seen) xs

/-- First occurrences of each element, in order. -/
def dedupFirst (l : List String) : List String :=
  dedupAux [] l

/-- `Counter(all_models_found).items()`: distinct tokens in first-appearance
order, each with its occurrence count. -/
def countOrdered (l : List String) : List (String × Nat) :=
  (dedupFirst l).map (fun m => (m, l.count m))

/-- `WYE_TONNAGE_MAP` of pricing.py: the fixed 7-entry direct map for the
WYE family.  `mkRat 15 2` is the source's `7.5` and `mkRat 25 2` its `12.5`
(written via `mkRat` to stay kernel-computable; exact values). -/
def WYE_TONNAGE_MAP : List (String × Rat) :=
  [("03", 3), ("04", 4), ("06", 5), ("07", 6),
   ("08", mkRat 15 2), ("10", 10), ("12", mkRat 25 2)]

/-- Dictionary lookup in `WYE_TONNAGE_MAP`. -/
def wyeLookup (code : String) : Option Rat :=
  (WYE_TONNAGE_MAP.find? (fun e => e.1 == code)).map (fun e => e.2)

/-- `re.match(r'^[A-Z]{3}\d{2}', model)` (case-sensitive; models are already
upper-cased when tested). -/
def wyeShape (model : String) : Bool :=
  match model.toList with
  | c1 :: c2 :: c3 :: c4 :: c5 :: _ =>
    ('A' ≤ c1 && c1 ≤ 'Z') && ('A' ≤ c2 && c2 ≤ 'Z') && ('A' ≤ c3 && c3 ≤ 'Z')
      && c4.isDigit && c5.isDigit
  | _ => false

/-- `model[3:5]`: the WYE capacity code. -/
def wyeCode (model : String) : String :=
  String.mk ((model.toList.drop 3).take 2)

/-- The old-style positional capacity code:
`first_five = re.sub(r'[^A-Z0-9]', '', model)[:5]`, then positions 2-4 if
all digits, else positions 2-3 if all digits, else failure.  (`''.isdigit()`
is false in Python; the length guards make the slices nonempty anyway.) -/
def oldCode (model : String) : Option String :=
  let ff := (model.toList.filter isUpperAlnum).take 5
  if 5 ≤ ff.length && ((ff.drop 2).take 3).all isDigitCh then
    some (String.mk ((ff.drop 2).take 3))
  else if 4 ≤ ff.length && ((ff.drop 2).take 2).all isDigitCh then
    some (String.mk ((ff.drop 2).take 2))
  else none

/-- The external tonnage table: rows of (capacity_code as text, tons).  The
loader forces the first column to `str`, preserving leading zeros. -/
abbrev TonnageTable := List (String × Rat)

/-- `tonnage_key_df[tonnage_key_df['capacity_code'] == capacity_code]` with
`.iloc[0]`: the first row whose code column equals the key, by exact string
comparison. -/
def lookupCode (df : TonnageTable) (code : String) : Option (String × Rat) :=
  df.find? (fun e => e.1 == code)

/-- Diagnostic reasons of the ClarificationItems (the structured content of
the source's f-strings). -/
inductive Reason where
  | wyeCodeNotFound : String → Reason
  | codeNotFoundInKey : String → Reason
  | couldNotDecode : Reason
  | tonnageNotInTier : Rat → Reason
deriving Repr, DecidableEq

structure PricedItem where
  model : String
  quantity : Nat
  tons : Rat
  unit_price : Nat
  line_total : Nat
deriving Repr, DecidableEq

structure ClarificationItem where
  model : String
  quantity : Nat
  reason : Reason
deriving Repr, DecidableEq

structure Summary where
  grand_total : Nat
  priced_units_count : Nat
  total_units_count : Nat
deriving Repr, DecidableEq

structure PricingResult where
  priced_items : List PricedItem
  needs_clarification : List ClarificationItem
  summary : Summary
deriving Repr, DecidableEq

/-- The return value of `parse_and_price`: either the error dictionary
(tonnage key not loaded) or a full result. -/
inductive PricingOutput where
  | error : String → PricingOutput
  | ok : PricingResult → PricingOutput
deriving Repr, DecidableEq

/-- The universal pricing logic (lines 97-111 of pricing.py) applied to a
resolved tonnage: `unit_price = 0`; `800` if `3.0 <= tons <= 10.0`; `900` if
`tons in {12.5, 15, 17.5, 20, 25, 27.5}`; a PricedItem with
`line_total = unit_price * quantity` when `unit_price > 0`, else a
ClarificationItem citing the tonnage. -/
def priceWithTons (model : String) (quantity : Nat) (tons : Rat) :
    Sum PricedItem ClarificationItem :=
  let unit_price : Nat :=
    if 3 ≤ tons ∧ tons ≤ 10 then 800
    else if tons = mkRat 25 2 ∨ tons = 15 ∨ tons = mkRat 35 2
        ∨ tons = 20 ∨ tons = 25 ∨ tons = mkRat 55 2 then 900
    else 0
  if 0 < unit_price then
    Sum.inl ⟨model, quantity, tons, unit_price, unit_price * quantity⟩
  else
    Sum.inr ⟨model, quantity, Reason.tonnageNotInTier tons⟩

/-- One iteration of the `for model, quantity in model_counts.items()` loop:
the state is the pair (priced_items, needs_clarification) accumulated so
far. -/
def priceStep (df : TonnageTable)
    (st : List PricedItem × List ClarificationItem) (mq : String × Nat) :
    List PricedItem × List ClarificationItem :=
  let model := mq.1
  let quantity := mq.2
  let emit : Rat → List PricedItem × List ClarificationItem := fun tons =>
    match priceWithTons model quantity tons with
    | Sum.inl it => (st.1 ++ [it], st.2)
    | Sum.inr ci => (st.1, st.2 ++ [ci])
  if wyeShape model then
    match wyeLookup (wyeCode model) with
    | some tons => emit tons
    | none =>
      (st.1, st.2 ++ [⟨model, quantity, Reason.wyeCodeNotFound (wyeCode model)⟩])
  else
    match oldCode model with
    | some code =>
      match lookupCode df code with
      | some entry => emit entry.2
      | none =>
        (st.1, st.2 ++ [⟨model, quantity, Reason.codeNotFoundInKey code⟩])
    | none =>
      if st.2.any (fun item => item.model == model) then st
      else (st.1, st.2 ++ [⟨model, quantity, Reason.couldNotDecode⟩])

/-- `parse_and_price(text, tonnage_key_df)`.  `none` for the table models the
`tonnage_key_df is None` case. -/
def parse_and_price (text : String) (tonnage_key_df : Option TonnageTable) :
    PricingOutput :=
  match tonnage_key_df with
  | none => PricingOutput.error "Tonnage key file not loaded."
  | some df =>
    let all := allModelsFound text
    let st := (countOrdered all).foldl (priceStep df) ([], [])
    PricingOutput.ok
      { priced_items := st.1
        needs_clarification := st.2
        summary :=
          { grand_total := (st.1.map (fun it => it.line_total)).sum
            priced_units_count := (st.1.map (fun it => it.quantity)).sum
            total_units_count := all.length } }

/-!
## Address extraction: `\d{3,}\s+[\w\s\.\,\#]+\b(?:[A-Z]{2})\b\s+\d{5}`

applied with `re.search(..., re.IGNORECASE)`.  The only live backtracking is
between the two greedy flexible parts and their successors; it is realized
by descending over split lengths (regex semantics: rightmost quantifier
backtracks first).
-/

/-- Class `[\w\s\.\,\#]`. -/
def isAddrMidCh (c : Char) : Bool :=
  isWordCh c || isSpaceCh c || c == '.' || c == ',' || c == '#'

/-- Match `\b[A-Z]{2}\b\s+\d{5}` (IGNORECASE) at the head of `cs`, where
`prev` is the character just before (always from the middle class).
`\s+` greedy is exact here: whitespace and digits are disjoint. -/
def addrTail (prev : Char) (cs : List Char) : Option Nat :=
  match cs with
  | a :: b :: rest =>
    if a.isAlpha && b.isAlpha && (isWordCh prev != isWordCh a)
        && boundaryB b rest.head? then
      let s := (rest.takeWhile isSpaceCh).length
      if 1 ≤ s
          && (((rest.drop s).take 5).length == 5)
          && ((rest.drop s).take 5).all isDigitCh then
        some (2 + s + 5)
      else none
    else none
  | _ => none

/-- Greedy descent returning the computed value: tries `j = n, n-1, ..., 1`
and keeps the first success. -/
def descendV (f : Nat → Option Nat) : Nat → Option Nat
  | 0 => none
  | Nat.succ j =>
    match f (j + 1) with
    | some v => some v
    | none => descendV f j

/-- Match `[\w\s\.\,\#]+` then the tail at the head of `cs`, greedy with
backtracking over the split length. -/
def addrMid (cs : List Char) : Option Nat :=
  let n := (cs.takeWhile isAddrMidCh).length
  descendV (fun j =>
    match addrTail (cs.getD (j - 1) ' ') (cs.drop j) with
    | some v => some (j + v)
    | none => none) n

/-- Match the whole address pattern at the head of `cs`: `\d{3,}` then `\s+`
then the middle and tail, each greedy with backtracking. -/
def addrMatchAt (cs : List Char) : Option Nat :=
  let d := (cs.takeWhile isDigitCh).length
  descendV (fun j =>
    if 3 ≤ j then
      let afterD := cs.drop j
      let s := (afterD.takeWhile isSpaceCh).length
      match descendV (fun k =>
          match addrMid (afterD.drop k) with
          | some v => some (k + v)
          | none => none) s with
      | some v => some (j + v)
      | none => none
    else none) d

/-- `extract_address`: `re.search` scans start positions left to right and
returns the first match verbatim, or None. -/
def searchAddr : List Char → Option (List Char)
  | [] => none
  | c :: rest =>
    match addrMatchAt (c :: rest) with
    | some L => some ((c :: rest).take L)
    | none => searchAddr rest

def extract_address (text : String) : Option String :=
  (searchAddr text.toList).map String.mk

/-!
## The orchestrator (src/app.py)

`find_closest_partners` performs network and file I/O and is treated as an
external collaborator (spec section 6): it is passed in as a function.  Its
result is either a failure string or a ranked partner list.
-/

/-- A partner record: (partner_name, formatted address, distance_miles). -/
abbrev Partner := String × String × Rat

/-- The `partner_locator` field of the combined response: the error
dictionary built by the orchestrator, a failure string from the
collaborator, or a partner list. -/
inductive PartnerOutput where
  | failure : String → PartnerOutput
  | partners : List Partner → PartnerOutput
deriving Repr, DecidableEq

structure AppResponse where
  pricing_analysis : PricingOutput
  partner_locator : PartnerOutput
deriving Repr, DecidableEq

/-- `process_full_request` on a text that passed request validation: runs
pricing, extracts the address, and either consults the locator collaborator
or records the error object.  (`extract_address` can never return an empty
string - its pattern requires at least three digits - so Python truthiness
of the result coincides with the `Option` split.) -/
def process_full_request (locator : String → PartnerOutput)
    (tonnage_key_df : Option TonnageTable) (text : String) : AppResponse :=
  let pricing_results := parse_and_price text tonnage_key_df
  match extract_address text with
  | some addr => ⟨pricing_results, locator addr⟩
  | none =>
    ⟨pricing_results,
      PartnerOutput.failure "Could not extract a valid address from the text."⟩

/-!
## Auxiliary definitions used by theorem statements
-/

/-- Sum of the quantities of a clarification list. -/
def sumClarQ (l : List ClarificationItem) : Nat :=
  (l.map (fun it => it.quantity)).sum

/-- Does the text (under the scan context `p`, see `sub1`) contain an
occurrence matching serial pattern 1, i.e. a word-boundary-delimited
10-character run of uppercase letters and digits containing at least one
digit? -/
def hasBadRun (p : Bool) : List Char → Bool
  | [] => false
  | c :: rest => (p && run1Match (c :: rest)) || hasBadRun (!isUpperAlnum c) rest

/-- Membership of a tonnage in the discrete large tier set
`{12.5, 15, 17.5, 20, 25, 27.5}`. -/
def largeTier (tons : Rat) : Prop :=
  tons = mkRat 25 2 ∨ tons = 15 ∨ tons = mkRat 35 2
    ∨ tons = 20 ∨ tons = 25 ∨ tons = mkRat 55 2

instance : DecidablePred largeTier := fun tons => by
  unfold largeTier; infer_instance

end Geocoding

/-!
# Equation lemmas for the pattern-1 substitution
-/

namespace Geocoding

theorem sub1A_skip : ∀ (cs : List Char) (n : Nat),
    sub1A false n cs = sub1A false 0 (cs.drop n) := by
  intro cs
  induction cs with
  | nil => intro n; cases n <;> rfl
  | cons c rest ih =>
    intro n
    cases n with
    | zero => rfl
    | succ m =>
      show sub1A false m rest = _
      rw [List.drop_succ_cons]
      exact ih m

theorem sub1_nil (p : Bool) : sub1 p [] = [] := rfl

theorem sub1_cons (p : Bool) (c : Char) (rest : List Char) :
    sub1 p (c :: rest)
      = if p && run1Match (c :: rest) then sub1 false (rest.drop 9)
        else c :: sub1 (!isUpperAlnum c) rest := by
  show sub1A p 0 (c :: rest) = _
  rw [sub1A, sub1A_skip]
  rfl

theorem sub1_cons_match {p : Bool} {c : Char} {rest : List Char}
    (h : (p && run1Match (c :: rest)) = true) :
    sub1 p (c :: rest) = sub1 false (rest.drop 9) := by
  rw [sub1_cons, if_pos h]

theorem sub1_cons_nomatch {p : Bool} {c : Char} {rest : List Char}
    (h : (p && run1Match (c :: rest)) = false) :
    sub1 p (c :: rest) = c :: sub1 (!isUpperAlnum c) rest := by
  rw [sub1_cons, h]
  rfl

end Geocoding

namespace Geocoding

/-!
# Claim theorems: configuration error, determinism, lookups, orchestration
-/

/-- Claim C5: if the tonnage reference table is unavailable (`None`),
`parse_and_price` returns the result-level error object
`{"error": "Tonnage key file not loaded."}` and performs no pricing at all:
the error constructor carries no extracted tokens, no priced items and no
clarification items. -/
theorem missing_table_error (text : String) :
    parse_and_price text none = PricingOutput.error "Tonnage key file not loaded." :=
  rfl

/-- Claim C3: `parse_and_price` is a pure function of the input text and the
reference table: two runs on identical inputs return identical results
(identical priced items, clarifications and summary). -/
theorem parse_and_price_deterministic (text : String)
    (tbl : Option TonnageTable) (r1 r2 : PricingOutput)
    (h1 : parse_and_price text tbl = r1) (h2 : parse_and_price text tbl = r2) :
    r1 = r2 :=
  h1.symm.trans h2

theorem parse_and_price_deterministic_witness :
    PricingOutput.error "Tonnage key file not loaded."
      = PricingOutput.error "Tonnage key file not loaded." :=
  parse_and_price_deterministic "WYE06" none _ _ rfl rfl

/-- Claim C7: capacity-code lookup in the external tonnage table is by exact
string match with leading zeros preserved: a found row's key equals the
looked-up code character for character, a lookup succeeds exactly when a row
with that exact key exists, and in particular the code "03" never matches a
table entry keyed "3" but does match one keyed "03". -/
theorem lookup_exact_string_match :
    (∀ (df : TonnageTable) (code : String) (e : String × Rat),
        lookupCode df code = some e → e.1 = code)
  ∧ (∀ (df : TonnageTable) (code : String),
        (lookupCode df code).isSome ↔ ∃ e ∈ df, e.1 = code)
  ∧ (∀ t : Rat, lookupCode [("3", t)] "03" = none
        ∧ lookupCode [("03", t)] "03" = some ("03", t)) := by
  refine ⟨?_, ?_, ?_⟩
  · intro df code e h
    have := List.find?_some h
    simpa using this
  · intro df code
    rw [lookupCode, List.find?_isSome]
    simp
  · intro t
    exact ⟨rfl, rfl⟩

theorem lookup_exact_string_match_witness :
    (("03", (3 : Rat)).1 = "03")
  ∧ ((lookupCode [("03", (3 : Rat))] "03").isSome ↔ ∃ e ∈ [("03", (3 : Rat))], e.1 = "03") :=
  ⟨lookup_exact_string_match.1 [("03", 3)] "03" ("03", 3) rfl,
   lookup_exact_string_match.2.1 [("03", 3)] "03"⟩

/-- Claim C6: for a ModelToken matching the three-letter-plus-two-digit
shape, decoding takes characters 3-4 (0-indexed) as the capacity code and
looks it up in the fixed direct map only: the loop step is independent of
the external tonnage table; a miss of the direct map emits a
ClarificationItem whose reason cites the capacity code missing from the
direct map and prices nothing; a hit prices through the universal pricing
logic with the mapped tonnage. -/
theorem wye_direct_map_decoding (df df' : TonnageTable)
    (st : List PricedItem × List ClarificationItem) (model : String) (q : Nat)
    (h : wyeShape model = true) :
    priceStep df st (model, q) = priceStep df' st (model, q)
  ∧ (wyeLookup (wyeCode model) = none →
      priceStep df st (model, q)
        = (st.1, st.2 ++ [⟨model, q, Reason.wyeCodeNotFound (wyeCode model)⟩]))
  ∧ (∀ tons, wyeLookup (wyeCode model) = some tons →
      priceStep df st (model, q)
        = match priceWithTons model q tons with
          | Sum.inl it => (st.1 ++ [it], st.2)
          | Sum.inr ci => (st.1, st.2 ++ [ci])) := by
  refine ⟨?_, ?_, ?_⟩
  · simp only [priceStep, h, if_true]
  · intro hl
    simp only [priceStep, h, if_true, hl]
  · intro tons hl
    simp only [priceStep, h, if_true, hl]

theorem wye_direct_map_decoding_witness :
    priceStep [] ([], []) ("WYE06", 1) = priceStep [("06", 99)] ([], []) ("WYE06", 1)
  ∧ priceStep [] ([], []) ("WYE99", 1)
      = ([], [] ++ [⟨"WYE99", 1, Reason.wyeCodeNotFound "99"⟩]) :=
  ⟨(wye_direct_map_decoding [] [("06", 99)] ([], []) "WYE06" 1 (by decide)).1,
   (wye_direct_map_decoding [] [] ([], []) "WYE99" 1 (by decide)).2.1 (by decide)⟩

/-- Claim C8: a text in which the model scan finds no token at all yields a
normal (non-error) result with empty priced items, empty clarifications,
grand total 0 and total units 0 (given a loaded table). -/
theorem no_models_empty_result (text : String) (df : TonnageTable)
    (h : allModelsFound text = []) :
    parse_and_price text (some df) = PricingOutput.ok ⟨[], [], ⟨0, 0, 0⟩⟩ := by
  simp only [parse_and_price, h]
  rfl

theorem no_models_empty_result_witness :
    parse_and_price "hello world" (some [("030", mkRat 5 2)])
      = PricingOutput.ok ⟨[], [], ⟨0, 0, 0⟩⟩ :=
  no_models_empty_result "hello world" [("030", mkRat 5 2)] (by decide)

/-- Claim C9: when the address extractor finds no address-shaped substring,
the combined orchestrator response still carries a fully populated pricing
analysis (the ok constructor of `parse_and_price`, given a loaded table),
and its partner_locator field is the error object, not a crash or a missing
field. -/
theorem parse_and_price_ok_shape (text : String) (df : TonnageTable) :
    ∃ r, parse_and_price text (some df) = PricingOutput.ok r :=
  ⟨_, rfl⟩

theorem no_address_error_object (locator : String → PartnerOutput)
    (df : TonnageTable) (text : String) (h : extract_address text = none) :
    (process_full_request locator (some df) text).partner_locator
      = PartnerOutput.failure "Could not extract a valid address from the text."
  ∧ ∃ r, (process_full_request locator (some df) text).pricing_analysis
      = PricingOutput.ok r := by
  constructor
  · simp only [process_full_request, h]
  · obtain ⟨r, hr⟩ := parse_and_price_ok_shape text df
    refine ⟨r, ?_⟩
    simp only [process_full_request, h]
    exact hr

theorem no_address_error_object_witness :
    (process_full_request (fun _ => PartnerOutput.partners []) (some []) "no address here").partner_locator
      = PartnerOutput.failure "Could not extract a valid address from the text."
  ∧ ∃ r, (process_full_request (fun _ => PartnerOutput.partners []) (some []) "no address here").pricing_analysis
      = PricingOutput.ok r :=
  no_address_error_object (fun _ => PartnerOutput.partners []) [] "no address here" (by decide)

end Geocoding

namespace Geocoding

/-!
# The serial-number normalization: counterexamples and positive theorems
-/

/-- Counterexample to claim C4 as stated: the 10-character serial rule is
applied case-sensitively (its pattern has no IGNORECASE flag), so the
lowercase run "ab12345678" - a word-bounded 10-character run of letters and
digits containing a digit, matched case-insensitively by the claim's rule -
is NOT removed by normalization, while its uppercase form is; the lowercase
run even survives into model extraction and is clarified as a model token,
instead of being stripped. -/
theorem serial_strip_case_sensitive_cex :
    normalizeText "ab12345678" = "ab12345678".toList
  ∧ normalizeText "AB12345678" = []
  ∧ parse_and_price "ab12345678" (some [])
      = PricingOutput.ok
          ⟨[], [⟨"AB12345678", 1, Reason.codeNotFoundInKey "123"⟩], ⟨0, 0, 1⟩⟩ := by
  refine ⟨by decide, by decide, by decide⟩

/-- Counterexample to claim C10 as stated: in the text below the
10-character uppercase run "AB12345678" (which itself matches the model-code
shape) occurs word-bounded at the start and is indeed deleted, yet the very
same token string still appears as a ModelToken and produces a
ClarificationItem: the second, unbounded occurrence is exposed by the
serial-label substitution deleting "SN1234567890" right after it.  So "such
a token never appears as a ModelToken / never produces a ClarificationItem"
is false. -/
theorem serial_strip_consumes_models_cex :
    ("AB12345678 and AB12345678SN1234567890.".toList.take 10 = "AB12345678".toList
      ∧ modelHeadOk "AB12345678".toList = true
      ∧ "AB12345678".toList.all isUpperAlnum = true
      ∧ "AB12345678".toList.any isDigitCh = true
      ∧ isUpperAlnum ("AB12345678 and AB12345678SN1234567890.".toList.getD 10 ' ') = false)
  ∧ allModelsFound "AB12345678 and AB12345678SN1234567890." = ["AB12345678"]
  ∧ parse_and_price "AB12345678 and AB12345678SN1234567890." (some [])
      = PricingOutput.ok
          ⟨[], [⟨"AB12345678", 1, Reason.codeNotFoundInKey "123"⟩], ⟨0, 0, 1⟩⟩ := by
  refine ⟨by decide, by decide, by decide⟩

/-- Claim C10, amended: every word-bounded occurrence of a 10-character
uppercase-alphanumeric run containing a digit is itself deleted by the
serial-number rule, even when the run matches the model-code shape (the
statement quantifies over every such run, model-shaped or not), so that
occurrence never directly yields a ModelToken; however the same token string
can still be extracted when another occurrence of it survives normalization
(see the counterexample), so deletion is per-occurrence, not a guarantee
about the token string. -/
theorem serial_strip_deletes_bounded_run (run suf : List Char) (sep : Char)
    (h10 : run.length = 10) (hall : run.all isUpperAlnum = true)
    (hdig : run.any isDigitCh = true) (hsep : isUpperAlnum sep = false) :
    sub1 true (run ++ sep :: suf) = sep :: sub1 true suf := by
  have ht : (run ++ sep :: suf).take 10 = run := by
    rw [List.take_append_eq_append_take, h10, List.take_of_length_le (by omega)]
    simp
  have hd : (run ++ sep :: suf).drop 10 = sep :: suf := by
    rw [List.drop_append_eq_append_drop, h10, List.drop_of_length_le (by omega)]
    simp
  have hrm : run1Match (run ++ sep :: suf) = true := by
    simp [run1Match, ht, hd, h10, hall, hdig, hsep]
  obtain ⟨c, rest0, rfl⟩ : ∃ c rest0, run = c :: rest0 := by
    cases run with
    | nil => simp at h10
    | cons c r => exact ⟨c, r, rfl⟩
  have h9 : rest0.length = 9 := by
    simpa using h10
  have hrm2 : (true && run1Match (c :: (rest0 ++ sep :: suf))) = true := by
    rw [← List.cons_append]
    simpa using hrm
  rw [List.cons_append, sub1_cons_match hrm2]
  have hdrop : (rest0 ++ sep :: suf).drop 9 = sep :: suf := by
    rw [List.drop_append_eq_append_drop, h9, List.drop_of_length_le (by omega)]
    simp
  rw [hdrop, sub1_cons_nomatch (by simp), hsep]
  rfl

theorem serial_strip_deletes_bounded_run_witness :
    sub1 true ("AB12345678".toList ++ ' ' :: "x".toList)
      = ' ' :: sub1 true "x".toList :=
  serial_strip_deletes_bounded_run "AB12345678".toList "x".toList ' '
    (by decide) (by decide) (by decide) (by decide)

end Geocoding

namespace Geocoding

/-!
# The universal pricing logic
-/

theorem priceWithTons_cases (model : String) (q : Nat) (tons : Rat) :
    (∃ up : Nat, (up = 800 ∨ up = 900)
        ∧ priceWithTons model q tons = Sum.inl ⟨model, q, tons, up, up * q⟩)
  ∨ priceWithTons model q tons = Sum.inr ⟨model, q, Reason.tonnageNotInTier tons⟩ := by
  simp only [priceWithTons]
  by_cases h1 : (3 : Rat) ≤ tons ∧ tons ≤ 10
  · rw [if_pos h1, if_pos (by norm_num : (0 : Nat) < 800)]
    exact Or.inl ⟨800, Or.inl rfl, rfl⟩
  · rw [if_neg h1]
    by_cases h2 : tons = mkRat 25 2 ∨ tons = 15 ∨ tons = mkRat 35 2
        ∨ tons = 20 ∨ tons = 25 ∨ tons = mkRat 55 2
    · rw [if_pos h2, if_pos (by norm_num : (0 : Nat) < 900)]
      exact Or.inl ⟨900, Or.inr rfl, rfl⟩
    · rw [if_neg h2, if_neg (by norm_num : ¬ (0 : Nat) < 0)]
      exact Or.inr rfl

/-- Shape of one loop iteration: either the model is silently skipped (only
possible when a clarification with the same model already exists), or
exactly one PricedItem with this model and quantity and a tier price is
appended, or exactly one ClarificationItem with this model and quantity is
appended. -/
theorem priceStep_shape (df : TonnageTable) (p : List PricedItem)
    (c : List ClarificationItem) (m : String) (q : Nat) :
    ((∃ it ∈ c, it.model = m) ∧ priceStep df (p, c) (m, q) = (p, c))
  ∨ (∃ tns : Rat, ∃ up : Nat, (up = 800 ∨ up = 900)
      ∧ priceStep df (p, c) (m, q) = (p ++ [⟨m, q, tns, up, up * q⟩], c))
  ∨ (∃ ci : ClarificationItem, ci.model = m ∧ ci.quantity = q
      ∧ priceStep df (p, c) (m, q) = (p, c ++ [ci])) := by
  by_cases hw : wyeShape m = true
  · cases hl : wyeLookup (wyeCode m) with
    | some tons =>
      rcases priceWithTons_cases m q tons with ⟨up, hup, hpw⟩ | hpw
      · refine Or.inr (Or.inl ⟨tons, up, hup, ?_⟩)
        simp only [priceStep, hw, if_true, hl, hpw]
      · refine Or.inr (Or.inr ⟨⟨m, q, Reason.tonnageNotInTier tons⟩, rfl, rfl, ?_⟩)
        simp only [priceStep, hw, if_true, hl, hpw]
    | none =>
      refine Or.inr (Or.inr ⟨⟨m, q, Reason.wyeCodeNotFound (wyeCode m)⟩, rfl, rfl, ?_⟩)
      simp only [priceStep, hw, if_true, hl]
  · cases ho : oldCode m with
    | some code =>
      cases hlk : lookupCode df code with
      | some entry =>
        rcases priceWithTons_cases m q entry.2 with ⟨up, hup, hpw⟩ | hpw
        · refine Or.inr (Or.inl ⟨entry.2, up, hup, ?_⟩)
          simp only [priceStep, hw, Bool.false_eq_true, if_false, ho, hlk, hpw]
        · refine Or.inr (Or.inr ⟨⟨m, q, Reason.tonnageNotInTier entry.2⟩, rfl, rfl, ?_⟩)
          simp only [priceStep, hw, Bool.false_eq_true, if_false, ho, hlk, hpw]
      | none =>
        refine Or.inr (Or.inr ⟨⟨m, q, Reason.codeNotFoundInKey code⟩, rfl, rfl, ?_⟩)
        simp only [priceStep, hw, Bool.false_eq_true, if_false, ho, hlk]
    | none =>
      cases hany : c.any (fun item => item.model == m) with
      | true =>
        refine Or.inl ⟨?_, ?_⟩
        · obtain ⟨it, hmem, heq⟩ := List.any_eq_true.mp hany
          exact ⟨it, hmem, by simpa using heq⟩
        · simp [priceStep, hw, ho, hany]
      | false =>
        refine Or.inr (Or.inr ⟨⟨m, q, Reason.couldNotDecode⟩, rfl, rfl, ?_⟩)
        simp only [priceStep, hw, Bool.false_eq_true, if_false, ho, hany]

theorem foldl_priced_good (df : TonnageTable) :
    ∀ (mc : List (String × Nat)) (p : List PricedItem) (c : List ClarificationItem),
    (∀ it ∈ p, it.line_total = it.unit_price * it.quantity
        ∧ (it.unit_price = 800 ∨ it.unit_price = 900)) →
    ∀ it ∈ (mc.foldl (priceStep df) (p, c)).1,
      it.line_total = it.unit_price * it.quantity
        ∧ (it.unit_price = 800 ∨ it.unit_price = 900) := by
  intro mc
  induction mc with
  | nil =>
    intro p c hp
    simpa using hp
  | cons mq rest ih =>
    intro p c hp
    rw [List.foldl_cons]
    have hshape := priceStep_shape df p c mq.1 mq.2
    rcases hshape with ⟨-, heq⟩ | ⟨tns, up, hup, heq⟩ | ⟨ci, -, -, heq⟩
    · rw [heq]
      exact ih p c hp
    · rw [heq]
      refine ih _ _ ?_
      intro it hit
      rcases List.mem_append.mp hit with h | h
      · exact hp it h
      · rcases List.mem_singleton.mp h with rfl
        exact ⟨rfl, hup⟩
    · rw [heq]
      exact ih _ _ hp

/-- Claim C1: the universal pricing logic.  A tonnage in the inclusive band
[3, 10] prices at the small-tier constant 800; a tonnage in the discrete set
{12.5, 15, 17.5, 20, 25, 27.5} prices at the large-tier constant 900; any
other tonnage yields a ClarificationItem whose reason cites the out-of-range
tonnage value.  Every PricedItem of every `parse_and_price` run satisfies
`line_total = unit_price * quantity`, and its unit price is one of the
single consistent pair (800, 900). -/
theorem tier_pricing_correct (model : String) (q : Nat) (tons : Rat) :
    ((3 ≤ tons ∧ tons ≤ 10) →
        priceWithTons model q tons = Sum.inl ⟨model, q, tons, 800, 800 * q⟩)
  ∧ (largeTier tons →
        priceWithTons model q tons = Sum.inl ⟨model, q, tons, 900, 900 * q⟩)
  ∧ (¬(3 ≤ tons ∧ tons ≤ 10) → ¬largeTier tons →
        priceWithTons model q tons = Sum.inr ⟨model, q, Reason.tonnageNotInTier tons⟩)
  ∧ (∀ (text : String) (df : TonnageTable) (r : PricingResult),
        parse_and_price text (some df) = PricingOutput.ok r →
        ∀ it ∈ r.priced_items,
          it.line_total = it.unit_price * it.quantity
            ∧ (it.unit_price = 800 ∨ it.unit_price = 900)) := by
  refine ⟨?_, ?_, ?_, ?_⟩
  · intro h1
    simp only [priceWithTons]
    rw [if_pos h1, if_pos (by norm_num : (0 : Nat) < 800)]
  · intro h2
    have h2' : tons = mkRat 25 2 ∨ tons = 15 ∨ tons = mkRat 35 2
        ∨ tons = 20 ∨ tons = 25 ∨ tons = mkRat 55 2 := h2
    have hn1 : ¬(3 ≤ tons ∧ tons ≤ 10) := by
      rcases h2' with rfl | rfl | rfl | rfl | rfl | rfl <;>
        (rintro ⟨-, h4⟩; exact absurd h4 (by decide))
    simp only [priceWithTons]
    rw [if_neg hn1, if_pos h2', if_pos (by norm_num : (0 : Nat) < 900)]
  · intro hn1 hn2
    have hn2' : ¬(tons = mkRat 25 2 ∨ tons = 15 ∨ tons = mkRat 35 2
        ∨ tons = 20 ∨ tons = 25 ∨ tons = mkRat 55 2) := hn2
    simp only [priceWithTons]
    rw [if_neg hn1, if_neg hn2', if_neg (by norm_num : ¬ (0 : Nat) < 0)]
  · intro text df r hr it hit
    simp only [parse_and_price, PricingOutput.ok.injEq] at hr
    subst hr
    exact foldl_priced_good df _ [] [] (by simp) it hit

theorem tier_pricing_correct_witness :
    priceWithTons "ZF037" 2 3 = Sum.inl ⟨"ZF037", 2, 3, 800, 1600⟩
  ∧ priceWithTons "WYE12" 1 (mkRat 25 2)
      = Sum.inl ⟨"WYE12", 1, mkRat 25 2, 900, 900⟩
  ∧ priceWithTons "ZF11X" 1 11 = Sum.inr ⟨"ZF11X", 1, Reason.tonnageNotInTier 11⟩
  ∧ ((⟨"AB123", 2, 5, 800, 1600⟩ : PricedItem).line_total
        = (⟨"AB123", 2, 5, 800, 1600⟩ : PricedItem).unit_price
          * (⟨"AB123", 2, 5, 800, 1600⟩ : PricedItem).quantity
      ∧ ((⟨"AB123", 2, 5, 800, 1600⟩ : PricedItem).unit_price = 800
          ∨ (⟨"AB123", 2, 5, 800, 1600⟩ : PricedItem).unit_price = 900)) :=
  ⟨(tier_pricing_correct "ZF037" 2 3).1 ⟨by decide, by decide⟩,
   (tier_pricing_correct "WYE12" 1 (mkRat 25 2)).2.1 (Or.inl rfl),
   (tier_pricing_correct "ZF11X" 1 11).2.2.1
     (by rintro ⟨-, h⟩; exact absurd h (by decide)) (by rintro (h|h|h|h|h|h) <;> revert h <;> decide),
   (tier_pricing_correct "AB123" 2 5).2.2.2 "AB123 zz AB123" [("123", 5)]
     ⟨[⟨"AB123", 2, 5, 800, 1600⟩], [], ⟨1600, 2, 2⟩⟩ (by decide)
     ⟨"AB123", 2, 5, 800, 1600⟩ (by simp)⟩

end Geocoding

namespace Geocoding

/-!
# Counter semantics: distinct keys, counts summing to the total
-/

theorem dedupAux_mem : ∀ (l seen : List String) (x : String),
    x ∈ dedupAux seen l → x ∈ l ∧ x ∉ seen := by
  intro l
  induction l with
  | nil =>
    intro seen x h
    simp [dedupAux] at h
  | cons a as ih =>
    intro seen x h
    simp only [dedupAux] at h
    by_cases ha : a ∈ seen
    · rw [if_pos ha] at h
      obtain ⟨h1, h2⟩ := ih seen x h
      exact ⟨List.mem_cons_of_mem a h1, h2⟩
    · rw [if_neg ha] at h
      rcases List.mem_cons.mp h with rfl | h'
      · exact ⟨List.mem_cons_self x as, ha⟩
      · obtain ⟨h1, h2⟩ := ih (a :: seen) x h'
        refine ⟨List.mem_cons_of_mem a h1, fun hx => h2 (List.mem_cons_of_mem a hx)⟩

theorem dedupAux_nodup : ∀ (l seen : List String), (dedupAux seen l).Nodup := by
  intro l
  induction l with
  | nil =>
    intro seen
    simp [dedupAux]
  | cons a as ih =>
    intro seen
    simp only [dedupAux]
    by_cases ha : a ∈ seen
    · rw [if_pos ha]
      exact ih seen
    · rw [if_neg ha]
      refine List.nodup_cons.mpr ⟨?_, ih (a :: seen)⟩
      intro hmem
      exact (dedupAux_mem as (a :: seen) a hmem).2 (List.mem_cons_self a seen)

theorem filter_seen_split (x : String) (seen : List String) (hx : x ∉ seen) :
    ∀ as : List String,
      (as.filter (fun y => !decide (y ∈ seen))).length
        = as.count x + (as.filter (fun y => !decide (y ∈ x :: seen))).length := by
  intro as
  induction as with
  | nil => simp
  | cons b bs ih =>
    by_cases hbx : b = x
    · subst hbx
      simp [List.filter_cons, List.count_cons, hx] at ih ⊢
      omega
    · by_cases hbs : b ∈ seen
      · simp [List.filter_cons, List.count_cons, hbx, hbs] at ih ⊢
        omega
      · simp [List.filter_cons, List.count_cons, hbx, hbs] at ih ⊢
        omega

theorem dedupAux_count_sum : ∀ (l seen : List String),
    ((dedupAux seen l).map (fun m => l.count m)).sum
      = (l.filter (fun y => !decide (y ∈ seen))).length := by
  intro l
  induction l with
  | nil => simp [dedupAux]
  | cons a as ih =>
    intro seen
    simp only [dedupAux]
    by_cases ha : a ∈ seen
    · rw [if_pos ha, List.filter_cons]
      have hcongr : ((dedupAux seen as).map (fun m => (a :: as).count m))
          = (dedupAux seen as).map (fun m => as.count m) := by
        apply List.map_congr_left
        intro m hm
        have hmse := (dedupAux_mem as seen m hm).2
        have hma : m ≠ a := fun hc => hmse (hc ▸ ha)
        rw [List.count_cons]
        simp [Ne.symm hma]
      rw [hcongr, ih seen]
      simp [ha]
    · rw [if_neg ha, List.filter_cons]
      simp only [List.map_cons, List.sum_cons]
      have hcongr : ((dedupAux (a :: seen) as).map (fun m => (a :: as).count m))
          = (dedupAux (a :: seen) as).map (fun m => as.count m) := by
        apply List.map_congr_left
        intro m hm
        have hmse := (dedupAux_mem as (a :: seen) m hm).2
        have hma : m ≠ a := fun hc => hmse (hc ▸ List.mem_cons_self a seen)
        rw [List.count_cons]
        simp [Ne.symm hma]
      rw [hcongr, ih (a :: seen), List.count_cons]
      have hsplit := filter_seen_split a seen ha as
      simp [ha] at hsplit ⊢
      omega

theorem countOrdered_sum (l : List String) :
    ((countOrdered l).map (fun e => e.2)).sum = l.length := by
  have h := dedupAux_count_sum l []
  simp only [countOrdered, dedupFirst, List.map_map]
  simp only [List.not_mem_nil, decide_False, Bool.not_false, List.filter_true] at h
  simpa using h

theorem countOrdered_keys (l : List String) :
    (countOrdered l).map (fun e => e.1) = dedupFirst l := by
  unfold countOrdered
  rw [List.map_map]
  have hcomp : ((fun e : String × Nat => e.1) ∘ fun m => (m, l.count m))
      = fun m => m := rfl
  rw [hcomp]
  simp

theorem countOrdered_keys_nodup (l : List String) :
    ((countOrdered l).map (fun e => e.1)).Nodup := by
  rw [countOrdered_keys]
  exact dedupAux_nodup l []

/-!
# Quantity conservation through the pricing fold
-/

theorem foldl_conservation (df : TonnageTable) :
    ∀ (mc : List (String × Nat)) (p : List PricedItem) (c : List ClarificationItem),
    (∀ m ∈ mc.map (fun e => e.1), ∀ it ∈ c, it.model ≠ m) →
    ((mc.map (fun e => e.1)).Nodup) →
    (((mc.foldl (priceStep df) (p, c)).1.map (fun it => it.quantity)).sum
        + sumClarQ (mc.foldl (priceStep df) (p, c)).2
      = (p.map (fun it => it.quantity)).sum + sumClarQ c + (mc.map (fun e => e.2)).sum)
    ∧ ∀ it ∈ (mc.foldl (priceStep df) (p, c)).2,
        it ∈ c ∨ it.model ∈ mc.map (fun e => e.1) := by
  intro mc
  induction mc with
  | nil =>
    intro p c hdis hnd
    refine ⟨by simp, fun it hit => Or.inl hit⟩
  | cons mq rest ih =>
    intro p c hdis hnd
    obtain ⟨m, q⟩ := mq
    rw [List.foldl_cons]
    have hm_head : m ∈ ((m, q) :: rest).map (fun e => e.1) := by simp
    have hnd' : (rest.map (fun e => e.1)).Nodup := by
      rw [List.map_cons] at hnd
      exact (List.nodup_cons.mp hnd).2
    have hm_not_rest : m ∉ rest.map (fun e => e.1) := by
      rw [List.map_cons] at hnd
      exact (List.nodup_cons.mp hnd).1
    rcases priceStep_shape df p c m q with
        ⟨⟨it, hitc, hitm⟩, heq⟩ | ⟨tns, up, hup, heq⟩ | ⟨ci, hcm, hcq, heq⟩
    · exact absurd hitm (hdis m hm_head it hitc)
    · rw [heq]
      have hdis' : ∀ m' ∈ rest.map (fun e => e.1), ∀ it ∈ c, it.model ≠ m' :=
        fun m' hm' => hdis m' (by simp [hm'])
      obtain ⟨hsum, hsub⟩ := ih (p ++ [⟨m, q, tns, up, up * q⟩]) c hdis' hnd'
      constructor
      · rw [hsum]
        simp
        omega
      · intro it hit
        rcases hsub it hit with h | h
        · exact Or.inl h
        · exact Or.inr (by simp [h])
    · rw [heq]
      have hdis' : ∀ m' ∈ rest.map (fun e => e.1), ∀ it ∈ c ++ [ci], it.model ≠ m' := by
        intro m' hm' it hit
        rcases List.mem_append.mp hit with h | h
        · exact hdis m' (by simp [hm']) it h
        · rcases List.mem_singleton.mp h with rfl
          rw [hcm]
          intro hcon
          exact hm_not_rest (hcon ▸ hm')
      obtain ⟨hsum, hsub⟩ := ih p (c ++ [ci]) hdis' hnd'
      constructor
      · rw [hsum]
        simp [sumClarQ, hcq]
        omega
      · intro it hit
        rcases hsub it hit with h | h
        · rcases List.mem_append.mp h with h' | h'
          · exact Or.inl h'
          · rcases List.mem_singleton.mp h' with rfl
            exact Or.inr (by simp [hcm])
        · exact Or.inr (by simp [h])

/-- Claim C2: quantity conservation.  For every input text and loaded table,
the returned result satisfies `total_units_count = priced_units_count + sum
of the quantities of all ClarificationItems`. -/
theorem quantity_conservation (text : String) (df : TonnageTable)
    (r : PricingResult) (h : parse_and_price text (some df) = PricingOutput.ok r) :
    r.summary.total_units_count
      = r.summary.priced_units_count + sumClarQ r.needs_clarification := by
  simp only [parse_and_price, PricingOutput.ok.injEq] at h
  subst h
  have hdis : ∀ m ∈ (countOrdered (allModelsFound text)).map (fun e => e.1),
      ∀ it ∈ ([] : List ClarificationItem), it.model ≠ m := by
    simp
  obtain ⟨hsum, -⟩ := foldl_conservation df (countOrdered (allModelsFound text)) [] []
    hdis (countOrdered_keys_nodup (allModelsFound text))
  simp only [List.map_nil, List.sum_nil, sumClarQ, Nat.zero_add] at hsum
  show (allModelsFound text).length = _
  rw [← countOrdered_sum (allModelsFound text)]
  simpa [sumClarQ] using hsum.symm

theorem quantity_conservation_witness :
    (PricingResult.mk [⟨"AB123", 2, 5, 800, 1600⟩]
        [⟨"ZF11X", 1, Reason.tonnageNotInTier 11⟩] ⟨1600, 2, 3⟩).summary.total_units_count
      = (PricingResult.mk [⟨"AB123", 2, 5, 800, 1600⟩]
          [⟨"ZF11X", 1, Reason.tonnageNotInTier 11⟩] ⟨1600, 2, 3⟩).summary.priced_units_count
        + sumClarQ (PricingResult.mk [⟨"AB123", 2, 5, 800, 1600⟩]
          [⟨"ZF11X", 1, Reason.tonnageNotInTier 11⟩] ⟨1600, 2, 3⟩).needs_clarification :=
  quantity_conservation "AB123 zz AB123 zz ZF11X" [("123", 5), ("11", 11)] _ (by decide)

end Geocoding

namespace Geocoding

/-!
# Rule 1 removes every word-bounded 10-character uppercase run with a digit
-/

theorem run1Match_head_false {c : Char} (hc : isUpperAlnum c = false)
    (l : List Char) : run1Match (c :: l) = false := by
  have h10 : (c :: l).take 10 = c :: l.take 9 := rfl
  simp [run1Match, h10, hc]

theorem run1Match_congr {cs ds : List Char} (h : cs.take 11 = ds.take 11) :
    run1Match cs = run1Match ds := by
  have e1 : (cs.take 11).take 10 = cs.take 10 := by
    rw [List.take_take]
    norm_num
  have e2 : (ds.take 11).take 10 = ds.take 10 := by
    rw [List.take_take]
    norm_num
  have h10 : cs.take 10 = ds.take 10 := by
    rw [← e1, h, e2]
  have hg : cs[10]? = ds[10]? := by
    have h1 : (cs.take 11)[10]? = cs[10]? := by
      simp [List.getElem?_take]
    have h2 : (ds.take 11)[10]? = ds[10]? := by
      simp [List.getElem?_take]
    rw [← h1, ← h2, h]
  have hd : (cs.drop 10).head? = (ds.drop 10).head? := by
    rw [List.head?_drop, List.head?_drop, hg]
  simp [run1Match, h10, hd]

theorem dropWhile_head_false (p : Char → Bool) : ∀ (l : List Char) (c : Char) (t : List Char),
    l.dropWhile p = c :: t → p c = false := by
  intro l
  induction l with
  | nil =>
    intro c t h
    simp [List.dropWhile] at h
  | cons a as ih =>
    intro c t h
    rw [List.dropWhile_cons] at h
    by_cases ha : p a = true
    · rw [if_pos ha] at h
      exact ih c t h
    · rw [if_neg ha] at h
      injection h with h1 h2
      subst h1
      simpa using ha

theorem run1Match_mid (c c' : Char) (pre X Y : List Char)
    (hc' : isUpperAlnum c' = false) :
    run1Match (c :: (pre ++ c' :: X)) = run1Match (c :: (pre ++ c' :: Y)) := by
  have htake : ∀ Z : List Char, (c :: (pre ++ c' :: Z)).take 11
      = c :: (pre.take 10 ++ (c' :: Z).take (10 - pre.length)) := by
    intro Z
    rw [show (11 : Nat) = 10 + 1 by rfl, List.take_succ_cons,
      List.take_append_eq_append_take]
  by_cases hlen : 9 ≤ pre.length
  · apply run1Match_congr
    have hk : 10 - pre.length ≤ 1 := by omega
    have hAB : (c' :: X).take (10 - pre.length) = (c' :: Y).take (10 - pre.length) := by
      rcases Nat.le_one_iff_eq_zero_or_eq_one.mp hk with h0 | h1
      · rw [h0]
        rfl
      · rw [h1]
        rfl
    rw [htake X, htake Y, hAB]
  · have hfalse : ∀ Z : List Char, run1Match (c :: (pre ++ c' :: Z)) = false := by
      intro Z
      have hmem : c' ∈ (c :: (pre ++ c' :: Z)).take 10 := by
        rw [show (10 : Nat) = 9 + 1 by rfl, List.take_succ_cons,
          List.take_append_eq_append_take]
        obtain ⟨k, hk⟩ : ∃ k, 9 - pre.length = k + 1 :=
          ⟨9 - pre.length - 1, by omega⟩
        rw [hk, List.take_succ_cons]
        exact List.mem_cons_of_mem c
          (List.mem_append_right _ (List.mem_cons_self c' _))
      have hall : ((c :: (pre ++ c' :: Z)).take 10).all isUpperAlnum = false := by
        refine Bool.eq_false_iff.mpr ?_
        intro hall_true
        have := List.all_eq_true.mp hall_true c' hmem
        rw [hc'] at this
        exact absurd this (by simp)
      unfold run1Match
      rw [hall]
      simp
    rw [hfalse X, hfalse Y]

theorem sub1_false_eq : ∀ cs : List Char,
    sub1 false cs
      = cs.takeWhile isUpperAlnum
        ++ (match cs.dropWhile isUpperAlnum with
            | [] => []
            | c :: t => c :: sub1 true t) := by
  intro cs
  induction cs with
  | nil => rfl
  | cons c rest ih =>
    rw [sub1_cons]
    simp only [Bool.false_and, Bool.false_eq_true, if_false]
    by_cases hc : isUpperAlnum c = true
    · rw [List.takeWhile_cons_of_pos hc, List.dropWhile_cons_of_pos hc, hc]
      simp only [Bool.not_true, List.cons_append]
      rw [ih]
    · have hc' : isUpperAlnum c = false := Bool.eq_false_iff.mpr hc
      rw [List.takeWhile_cons_of_neg (by simp [hc']), List.dropWhile_cons_of_neg (by simp [hc']), hc']
      rfl

theorem run1Match_sub1_false (c : Char) (rest : List Char) :
    run1Match (c :: sub1 false rest) = run1Match (c :: rest) := by
  rw [sub1_false_eq rest]
  cases hd : rest.dropWhile isUpperAlnum with
  | nil =>
    have hrest : rest.takeWhile isUpperAlnum ++ rest.dropWhile isUpperAlnum = rest :=
      List.takeWhile_append_dropWhile isUpperAlnum rest
    rw [hd] at hrest
    show run1Match (c :: (rest.takeWhile isUpperAlnum ++ [])) = run1Match (c :: rest)
    rw [hrest]
  | cons c' t =>
    have hc' : isUpperAlnum c' = false := dropWhile_head_false isUpperAlnum rest c' t hd
    conv_rhs => rw [← List.takeWhile_append_dropWhile isUpperAlnum rest, hd]
    exact run1Match_mid c c' (rest.takeWhile isUpperAlnum) (sub1 true t) t hc'

theorem hasBadRun_sub1_aux : ∀ (n : Nat) (cs : List Char), cs.length ≤ n →
    ∀ p : Bool, hasBadRun p (sub1 p cs) = false := by
  intro n
  induction n with
  | zero =>
    intro cs hlen p
    have hnil : cs = [] := List.length_eq_zero.mp (Nat.le_zero.mp hlen)
    subst hnil
    rfl
  | succ n ih =>
    intro cs hlen p
    cases cs with
    | nil => rfl
    | cons c rest =>
      by_cases hm : (p && run1Match (c :: rest)) = true
      · have hpq := hm
        simp only [Bool.and_eq_true] at hpq
        have hp : p = true := hpq.1
        have hrm : run1Match (c :: rest) = true := hpq.2
        subst hp
        rw [sub1_cons_match hm]
        have h4 : (match (rest.drop 9).head? with
            | none => true
            | some c0 => !isUpperAlnum c0) = true := by
          have e : (c :: rest).drop 10 = rest.drop 9 := rfl
          simp only [run1Match, Bool.and_eq_true, e] at hrm
          exact hrm.2
        cases hd9 : rest.drop 9 with
        | nil => rfl
        | cons c0 t =>
          have hc0 : isUpperAlnum c0 = false := by
            rw [hd9] at h4
            simpa using h4
          have hlent : t.length ≤ n := by
            have hlen9 := congrArg List.length hd9
            rw [List.length_drop] at hlen9
            simp only [List.length_cons] at hlen hlen9
            omega
          rw [sub1_cons_nomatch (by simp : (false && run1Match (c0 :: t)) = false)]
          simp only [hasBadRun, hc0, Bool.not_false]
          rw [run1Match_head_false hc0, ih t hlent true]
          rfl
      · have hm' : (p && run1Match (c :: rest)) = false := Bool.eq_false_iff.mpr hm
        rw [sub1_cons_nomatch hm']
        simp only [hasBadRun]
        have hlenr : rest.length ≤ n := by
          simp only [List.length_cons] at hlen
          omega
        rw [ih rest hlenr (!isUpperAlnum c), Bool.or_false]
        cases hp : p with
        | false => rfl
        | true =>
          rw [hp, Bool.true_and] at hm'
          rw [Bool.true_and]
          cases hcua : isUpperAlnum c with
          | false =>
            simp only [Bool.not_false]
            exact run1Match_head_false hcua _
          | true =>
            simp only [Bool.not_true]
            rw [run1Match_sub1_false c rest]
            exact hm'

/-- Claim C4, amended: the first normalization rule removes every
word-boundary-delimited 10-character contiguous run of UPPERCASE letters and
digits containing at least one digit - after the rule-1 substitution the
text contains no such run anywhere (`hasBadRun` scans for one exactly as the
pattern matches).  The amendment against the claim as stated: the match is
case-sensitive, not case-insensitive; a lowercase or mixed-case run is NOT
removed (see the counterexample). -/
theorem serial_strip_removes_upper_runs (text : String) :
    hasBadRun true (sub1 true text.toList) = false :=
  hasBadRun_sub1_aux text.toList.length text.toList le_rfl true

end Geocoding
